import Mathlib

/-!
# Verification of the redaction engine core

Shallow embedding of the `redaction` Go package (detector, conflict
resolver, rewriter, token vault, policy validation) and proofs of the
specification's claims about it.

Conventions of the embedding:
* Go strings are `List Char`; byte offsets into them are `Int`
  (Go `int`), with `List.take`/`List.drop` via `Int.toNat` for slicing.
* Go `time.Time` is an `Int` timestamp; `time.Now().After(t)` is `now > t`.
* Go maps used as key/value stores (`tokens`, `patterns`) are association
  lists with insert-overwrites semantics; iteration order of the
  `patterns` map is made explicit by keeping it as an ordered list, since
  Go randomises it.
* The external regex engine is abstracted: a compiled pattern is a
  `Matcher : List Char → List (Nat × Nat)` returning what Go's
  `FindAllStringIndex` returns (non-overlapping match spans, ascending).
  `regexp.Compile` is a parameter `compile : String → Option Matcher`
  (`none` = compilation error).
* Go `float64` confidence scores are `ℚ` (their exact decimal values).
-/

namespace Redact

/-- Go `type Type string` (redaction type label). -/
abbrev RedactionType := String

/-- Go `type Mode string` (redaction mode). -/
abbrev Mode := String

/-- A compiled regular expression, abstracted to the function
`FindAllStringIndex` computes: all (non-overlapping) match spans
`(start, end)` in the text, in ascending order. -/
abbrev Matcher := List Char → List (Nat × Nat)

/-- One detection / redaction. Embeds the Go struct `Redaction`
(fields `Type`, `Start`, `End`, `Original`, `Replacement`,
`Confidence`, `Context`); `Type`/`End` are renamed `rtype`/`stop`
because they are Lean keywords. -/
structure Redaction where
  rtype : RedactionType
  start : Int
  stop : Int
  original : List Char
  replacement : List Char
  confidence : ℚ
  context : List Char
deriving DecidableEq, Repr

/-- Go `redactionsOverlap` (part_007 line 1402): half-open interval
intersection test `a.Start < b.End && b.Start < a.End`. -/
def redactionsOverlap (a b : Redaction) : Bool :=
  decide (a.start < b.stop) && decide (b.start < a.stop)

/-- Go `getTypePriority` (part_007 lines 1424-1444): fixed priority
ranking used in length ties (higher = more important). -/
def getTypePriority (redactionType : RedactionType) : Int :=
  if redactionType = "uk_national_insurance" ∨ redactionType = "uk_nhs_number" ∨
      redactionType = "uk_passport_number" then 100
  else if redactionType = "uk_driving_license" ∨ redactionType = "uk_iban" ∨
      redactionType = "uk_sort_code" then 90
  else if redactionType = "uk_phone_number" ∨ redactionType = "uk_mobile_number" ∨
      redactionType = "uk_company_number" then 80
  else if redactionType = "uk_postcode" then 70
  else if redactionType = "ssn" ∨ redactionType = "credit_card" then 60
  else if redactionType = "email" ∨ redactionType = "phone" then 50
  else if redactionType = "ip_address" ∨ redactionType = "date" ∨
      redactionType = "time" then 40
  else 30

/-- Go `shouldReplaceRedaction` (part_007 lines 1407-1421): the incoming
candidate replaces the accepted one iff it is strictly longer, or the
lengths tie and its type priority is strictly higher. -/
def shouldReplaceRedaction (cand existing : Redaction) : Bool :=
  let newLength := cand.stop - cand.start
  let existingLength := existing.stop - existing.start
  if newLength ≠ existingLength then decide (newLength > existingLength)
  else decide (getTypePriority cand.rtype > getTypePriority existing.rtype)

/-! ### The in-place swap sort

Both `resolveOverlappingRedactions` (ascending by `Start`) and
`redactTextInternal` (descending by `Start`) sort with the same nested
loop
`for i { for j := i+1 { if cmp(r[i], r[j]) { r[i], r[j] = r[j], r[i] } } }`.
After the inner loop for index `i` finishes, position `i` is never
touched again, and each swap leaves the displaced element at position
`j`.  `selectSwap acc l` is exactly one inner loop (`acc` = the value
currently at position `i`, `l` = positions `i+1 ..`): it returns the
final value at position `i` and the final contents of positions
`i+1 ..`.  `swapSortFuel` chains the outer iterations (the fuel is the
number of outer iterations, `l.length`). -/

/-- One inner pass of the Go swap sort: `cmp x y = true` means the Go
code swaps (`x` stays at the later position `j`, `y` becomes the new
value at position `i`). -/
def selectSwap (cmp : Redaction → Redaction → Bool) (x : Redaction) :
    List Redaction → Redaction × List Redaction
  | [] => (x, [])
  | y :: ys =>
    if cmp x y then
      let p := selectSwap cmp y ys
      (p.1, x :: p.2)
    else
      let p := selectSwap cmp x ys
      (p.1, y :: p.2)

/-- The outer loop of the Go swap sort, with explicit fuel (the Go loop
runs `l.length` outer iterations). -/
def swapSortFuel (cmp : Redaction → Redaction → Bool) : Nat → List Redaction → List Redaction
  | 0, l => l
  | _ + 1, [] => []
  | n + 1, x :: xs =>
    let p := selectSwap cmp x xs
    p.1 :: swapSortFuel cmp n p.2

/-- The Go nested swap-sort loop. -/
def swapSort (cmp : Redaction → Redaction → Bool) (l : List Redaction) : List Redaction :=
  swapSortFuel cmp l.length l

/-- The ascending-by-`Start` sort at the head of
`resolveOverlappingRedactions` (part_007 lines 1365-1371): swap when
`redactions[i].Start > redactions[j].Start`. -/
def sortByStartAsc (l : List Redaction) : List Redaction :=
  swapSort (fun a b => decide (a.start > b.start)) l

/-- The descending-by-`Start` sort in `redactTextInternal`
(part_007 lines 1338-1344): swap when
`Redactions[i].Start < Redactions[j].Start`. -/
def sortByStartDesc (l : List Redaction) : List Redaction :=
  swapSort (fun a b => decide (a.start < b.start)) l

/-- The body of the `for _, current := range redactions` loop of
`resolveOverlappingRedactions` (part_007 lines 1375-1396): scan the
accepted list for the first entry overlapping `current`; on overlap,
replace it in place iff `shouldReplaceRedaction` and stop scanning
(the Go `break`); if no entry overlaps, append `current`. -/
def insertResolved (current : Redaction) : List Redaction → List Redaction
  | [] => [current]
  | existing :: rest =>
    if redactionsOverlap current existing then
      if shouldReplaceRedaction current existing then current :: rest
      else existing :: rest
    else existing :: insertResolved current rest

/-- Go `resolveOverlappingRedactions` (part_007 lines 1359-1399):
return lists of length ≤ 1 unchanged; otherwise sort by `Start`
ascending and fold the candidates into an accepted list with
`insertResolved`. -/
def resolveOverlappingRedactions (redactions : List Redaction) : List Redaction :=
  if redactions.length ≤ 1 then redactions
  else (sortByStartAsc redactions).foldl (fun resolved current => insertResolved current resolved) []

/-! ### Detection and rewrite (`redactTextInternal`) -/

/-- Go `generateReplacement` (part_007 lines 916-986): the fixed
placeholder for each redaction type. -/
def generateReplacement (redactionType : RedactionType) : List Char :=
  (if redactionType = "email" then "[EMAIL_REDACTED]"
  else if redactionType = "phone" then "[PHONE_REDACTED]"
  else if redactionType = "credit_card" then "[CREDIT_CARD_REDACTED]"
  else if redactionType = "ssn" then "[SSN_REDACTED]"
  else if redactionType = "address" then "[ADDRESS_REDACTED]"
  else if redactionType = "name" then "[NAME_REDACTED]"
  else if redactionType = "ip_address" then "[IP_ADDRESS_REDACTED]"
  else if redactionType = "date" then "[DATE_REDACTED]"
  else if redactionType = "time" then "[TIME_REDACTED]"
  else if redactionType = "link" then "[LINK_REDACTED]"
  else if redactionType = "zip_code" then "[ZIP_CODE_REDACTED]"
  else if redactionType = "po_box" then "[PO_BOX_REDACTED]"
  else if redactionType = "btc_address" then "[BTC_ADDRESS_REDACTED]"
  else if redactionType = "md5_hex" then "[MD5_HASH_REDACTED]"
  else if redactionType = "sha1_hex" then "[SHA1_HASH_REDACTED]"
  else if redactionType = "sha256_hex" then "[SHA256_HASH_REDACTED]"
  else if redactionType = "guid" then "[GUID_REDACTED]"
  else if redactionType = "isbn" then "[ISBN_REDACTED]"
  else if redactionType = "mac_address" then "[MAC_ADDRESS_REDACTED]"
  else if redactionType = "iban" then "[IBAN_REDACTED]"
  else if redactionType = "git_repo" then "[GIT_REPO_REDACTED]"
  else if redactionType = "uk_national_insurance" then "[UK_NATIONAL_INSURANCE_REDACTED]"
  else if redactionType = "uk_nhs_number" then "[UK_NHS_NUMBER_REDACTED]"
  else if redactionType = "uk_postcode" then "[UK_POSTCODE_REDACTED]"
  else if redactionType = "uk_phone_number" then "[UK_PHONE_NUMBER_REDACTED]"
  else if redactionType = "uk_mobile_number" then "[UK_MOBILE_NUMBER_REDACTED]"
  else if redactionType = "uk_sort_code" then "[UK_SORT_CODE_REDACTED]"
  else if redactionType = "uk_iban" then "[UK_IBAN_REDACTED]"
  else if redactionType = "uk_company_number" then "[UK_COMPANY_NUMBER_REDACTED]"
  else if redactionType = "uk_driving_license" then "[UK_DRIVING_LICENSE_REDACTED]"
  else if redactionType = "uk_passport_number" then "[UK_PASSPORT_NUMBER_REDACTED]"
  else "[REDACTED]").toList

/-- Go slice `text[s:e]` on a string, with `Int` offsets. -/
def slice (text : List Char) (s e : Int) : List Char :=
  (text.take e.toNat).drop s.toNat

/-- Go `extractContext` (part_007 lines 989-993): the ±20-byte window
`text[max(0, start-20) : min(len(text), end+20)]`. -/
def extractContext (text : List Char) (start stop : Int) : List Char :=
  slice text (max 0 (start - 20)) (min (text.length : Int) (stop + 20))

/-- The candidate-collection loop of `redactTextInternal`
(part_007 lines 1312-1332): for each pattern in iteration order, one
`Redaction` per reported match span, confidence 0.95. -/
def collectRedactions (patterns : List (RedactionType × Matcher)) (text : List Char) :
    List Redaction :=
  patterns.flatMap fun p =>
    (p.2 text).map fun m =>
      { rtype := p.1
        start := (m.1 : Int)
        stop := (m.2 : Int)
        original := slice text (m.1 : Int) (m.2 : Int)
        replacement := generateReplacement p.1
        confidence := mkRat 95 100
        context := extractContext text (m.1 : Int) (m.2 : Int) }

/-- One splice of the rewrite loop of `redactTextInternal`
(part_007 lines 1347-1353): guard `Start >= 0 && End <= len(text)`,
then `text[:Start] + Replacement + text[End:]`. -/
def applyRedaction (text : List Char) (r : Redaction) : List Char :=
  if 0 ≤ r.start ∧ r.stop ≤ (text.length : Int) then
    text.take r.start.toNat ++ r.replacement ++ text.drop r.stop.toNat
  else text

/-- The full rewrite loop: apply each redaction in list order
(the list is sorted start-descending by the caller). -/
def spliceAll (text : List Char) (rs : List Redaction) : List Char :=
  rs.foldl applyRedaction text

/-- Go `Result` (part_007 lines 712-718); the `Timestamp` is the `now`
passed in by the embedding. -/
structure Result where
  originalText : List Char
  redactedText : List Char
  redactions : List Redaction
  token : String
  timestamp : Int
deriving DecidableEq, Repr

/-- Go `redactTextInternal` (part_007 lines 1300-1356): collect
candidates from every pattern in iteration order, resolve overlaps,
sort the survivors start-descending, and splice them into the text.
The pattern map's (randomised) iteration order is the order of the
`patterns` list. -/
def redactTextInternal (patterns : List (RedactionType × Matcher)) (text : List Char)
    (now : Int) : Result :=
  let allRedactions := collectRedactions patterns text
  let resolved := resolveOverlappingRedactions allRedactions
  let ordered := sortByStartDesc resolved
  { originalText := text
    redactedText := spliceAll text ordered
    redactions := ordered
    token := ""
    timestamp := now }

/-! ### Token vault -/

/-- Go `TokenInfo` of the current `Engine` (part_007 lines 744-749):
the original text is stored in the clear. -/
structure TokenInfo where
  originalText : List Char
  rtype : RedactionType
  created : Int
  expires : Int
deriving DecidableEq, Repr

/-- The `tokens map[string]TokenInfo` field, as an association list. -/
abbrev TokenMap := List (String × TokenInfo)

/-- Go map read `m[k]`. -/
def mapLookup (m : TokenMap) (k : String) : Option TokenInfo :=
  (m.find? (fun p => p.1 = k)).map (·.2)

/-- Go map write `m[k] = v` (overwrite or add). -/
def mapInsert (m : TokenMap) (k : String) (v : TokenInfo) : TokenMap :=
  if (m.find? (fun p => p.1 = k)).isSome then
    m.map (fun p => if p.1 = k then (k, v) else p)
  else m ++ [(k, v)]

/-- Go `generateTokenWithTTL` (part_007 lines 1482-1501).  The random
token id is the parameter `freshTok`.  The access
`result.Redactions[0].Type` panics in Go when the result has no
redaction; that panic is the `none` value here. -/
def generateTokenWithTTL (tokens : TokenMap) (result : Result) (ttl : Int)
    (freshTok : String) (now : Int) : Option (String × TokenMap) :=
  match result.redactions with
  | [] => none
  | first :: _ =>
    some (freshTok,
      mapInsert tokens freshTok
        { originalText := result.originalText
          rtype := first.rtype
          created := now
          expires := now + ttl })

/-- Go `Engine.restoreTextInternal` (part_007 lines 903-913): look the
token up; an unknown id is an error, a known id returns the stored
original text (there is no expiry comparison on this path). -/
def restoreTextInternal (tokens : TokenMap) (token : String) : Except String (List Char) :=
  match mapLookup tokens token with
  | none => .error "invalid or expired token"
  | some tokenInfo => .ok tokenInfo.originalText

/-- Go `Engine.CleanupExpiredTokens` (part_007 lines 1015-1030):
delete every record with `now.After(Expires)`; returns the removed
count and the surviving map. -/
def CleanupExpiredTokens (tokens : TokenMap) (now : Int) : Nat × TokenMap :=
  let survivors := tokens.filter (fun p => ¬ now > p.2.expires)
  (tokens.length - survivors.length, survivors)

/-- Go `TokenInfo` of the legacy `RedactionEngine`
(part_007 lines 88-95): ciphertext + nonce + key version. -/
structure LegacyTokenInfo where
  encryptedData : List Nat
  rtype : RedactionType
  created : Int
  expires : Int
  keyVersion : Nat
  nonce : List Nat
deriving DecidableEq, Repr

/-- Go `RedactionEngine.RestoreText` (part_007 lines 390-411): unknown
id → error; `time.Now().After(Expires)` → expiry error; otherwise
AES-GCM decryption (the parameter `decrypt`, taking ciphertext and
nonce), whose failure is surfaced, not swallowed. -/
def legacyRestoreText (decrypt : List Nat → List Nat → Except String (List Char))
    (tokens : List (String × LegacyTokenInfo)) (token : String) (now : Int) :
    Except String (List Char) :=
  match ((tokens.find? (fun p => p.1 = token)).map (·.2)) with
  | none => .error "invalid or expired token"
  | some tokenInfo =>
    if now > tokenInfo.expires then .error "token has expired"
    else
      match decrypt tokenInfo.encryptedData tokenInfo.nonce with
      | .error e => .error ("failed to decrypt token data: " ++ e)
      | .ok originalText => .ok originalText

/-! ### The engine entry points -/

/-- Go `CustomPattern` (interfaces.go): the `Pattern` string is kept
together with the result of compiling it (`none` = `regexp.Compile`
failed, which `applyCustomPatterns` skips). -/
structure CustomPattern where
  name : String
  compiled : Option Matcher
  replacement : List Char
  confidence : ℚ
deriving Inhabited

/-- Go `Request` (interfaces.go lines 78-88), the fields the engine
reads. -/
structure Request where
  text : List Char
  customPatterns : List CustomPattern
  reversible : Bool
  ttl : Int
deriving Inhabited

/-- Go `Engine` (part_007 lines 733-741): ordered pattern table
(iteration order explicit), token map, configuration. -/
structure Engine where
  patterns : List (RedactionType × Matcher)
  tokens : TokenMap
  maxTextLength : Nat
  defaultTTL : Int

/-- Go `applyCustomPatterns` (part_007 lines 1447-1479): for each
custom pattern that compiles, match against the *current* redacted
text and append a `custom`-typed redaction per match (the text itself
is not rewritten here). -/
def applyCustomPatterns (result : Result) (patterns : List CustomPattern) : Result :=
  patterns.foldl
    (fun result pattern =>
      match pattern.compiled with
      | none => result
      | some compiled =>
        let news := (compiled result.redactedText).map fun m =>
          { rtype := "custom"
            start := (m.1 : Int)
            stop := (m.2 : Int)
            original := slice result.redactedText (m.1 : Int) (m.2 : Int)
            replacement :=
              if pattern.replacement = [] then "[CUSTOM_REDACTED]".toList
              else pattern.replacement
            confidence := pattern.confidence
            context := extractContext result.redactedText (m.1 : Int) (m.2 : Int) }
        { result with redactions := result.redactions ++ news })
    result

/-- Go `Engine.RedactText` (part_007 lines 1064-1099): cancellation
check, nil check, length check, core redaction, custom patterns, and —
for reversible requests with at least one redaction — token minting
with the request TTL (engine default when 0).  The outer `Option` is
`none` exactly when `generateTokenWithTTL` would panic; the result
pairs the response with the engine's new token map. -/
def RedactText (eng : Engine) (request : Option Request) (ctxCancelled : Bool)
    (freshTok : String) (now : Int) : Option (Except String (Result × TokenMap)) :=
  if ctxCancelled then some (.error "context cancelled")
  else
    match request with
    | none => some (.error "redaction request cannot be nil")
    | some request =>
      if request.text.length > eng.maxTextLength then
        some (.error "text length exceeds maximum allowed size")
      else
        let result := redactTextInternal eng.patterns request.text now
        let result :=
          if request.customPatterns.length > 0 then
            applyCustomPatterns result request.customPatterns
          else result
        if request.reversible ∧ result.redactions.length > 0 then
          let ttl := if request.ttl = 0 then eng.defaultTTL else request.ttl
          match generateTokenWithTTL eng.tokens result ttl freshTok now with
          | none => none
          | some (token, tokens) => some (.ok ({ result with token := token }, tokens))
        else some (.ok (result, eng.tokens))

/-- Go `Engine.AddCustomPattern` (part_007 lines 892-900, identically
engine.go lines 172-180): compile the regex (`compile` is
`regexp.Compile`); failure returns an error leaving the table alone,
success stores the matcher under the given name (Go map assignment:
overwrite or add).  Returns the error value together with the pattern
table after the call. -/
def AddCustomPattern (patterns : List (RedactionType × Matcher))
    (compile : String → Option Matcher) (name pattern : String) :
    Except String Unit × List (RedactionType × Matcher) :=
  match compile pattern with
  | none => (.error "invalid regex pattern", patterns)
  | some compiled =>
    (.ok (),
      if (patterns.find? (fun p => p.1 = name)).isSome then
        patterns.map (fun p => if p.1 = name then (name, compiled) else p)
      else patterns ++ [(name, compiled)])

/-! ### Policy rule validation -/

/-- Go `ValidationError` (interfaces.go lines 194-199). -/
structure ValidationError where
  rule : String
  field : String
  message : String
  code : String
deriving DecidableEq, Repr

/-- Go `PolicyCondition` (interfaces.go lines 148-152); the `Value` is
not consulted by validation. -/
structure PolicyCondition where
  field : String
  operator : String
deriving DecidableEq, Repr

/-- Go `PolicyRule` (interfaces.go lines 136-145), the fields
validation reads. -/
structure PolicyRule where
  name : String
  patterns : List String
  fields : List String
  mode : Mode
  conditions : List PolicyCondition
  priority : Int
  enabled : Bool
deriving DecidableEq, Repr

/-- Go `Engine.ValidatePolicy` (part_007 lines 1194-1244): per rule,
append an error for empty name, empty pattern list, negative priority,
and a mode outside {replace, mask, remove, tokenize, hash, encrypt};
all rules are scanned, all violations collected. -/
def engineValidatePolicy (rules : List PolicyRule) : List ValidationError :=
  rules.foldl
    (fun errors rule =>
      let errors := if rule.name = "" then
          errors ++ [⟨rule.name, "", "rule name cannot be empty", "EMPTY_RULE_NAME"⟩]
        else errors
      let errors := if rule.patterns.length = 0 then
          errors ++ [⟨rule.name, "", "rule must have at least one pattern", "NO_PATTERNS"⟩]
        else errors
      let errors := if rule.priority < 0 then
          errors ++ [⟨rule.name, "", "rule priority cannot be negative", "INVALID_PRIORITY"⟩]
        else errors
      let modeValid := ["replace", "mask", "remove", "tokenize", "hash", "encrypt"].contains rule.mode
      let errors := if ¬ modeValid then
          errors ++ [⟨rule.name, "", "invalid redaction mode", "INVALID_MODE"⟩]
        else errors
      errors)
    []

/-- Go `isValidMode` (policy_provider.go lines 395-407): the valid set
additionally contains `llm`. -/
def isValidMode (mode : Mode) : Bool :=
  ["replace", "mask", "remove", "tokenize", "hash", "encrypt", "llm"].contains mode

/-- Go `PolicyAwareEngine.ValidatePolicy` (policy_provider.go lines
71-151): an empty rule name short-circuits the rest of that rule's
checks (`continue`); otherwise each pattern is checked for emptiness
and regex syntax (`compile` = `regexp.Compile`), the field list for
non-emptiness, the mode against `isValidMode`, and each condition for
empty field/operator.  There is no priority check. -/
def policyAwareValidatePolicy (compile : String → Option Matcher)
    (rules : List PolicyRule) : List ValidationError :=
  rules.foldl
    (fun errors rule =>
      if rule.name = "" then
        errors ++ [⟨rule.name, "", "rule name cannot be empty", "MISSING_NAME"⟩]
      else
        let errors := errors ++ rule.patterns.flatMap (fun pattern =>
          if pattern = "" then
            [⟨rule.name, "patterns[i]", "pattern cannot be empty", "EMPTY_PATTERN"⟩]
          else if (compile pattern).isSome then []
          else [⟨rule.name, "patterns[i]", "invalid regex pattern", "INVALID_REGEX"⟩])
        let errors := if rule.fields.length = 0 then
            errors ++ [⟨rule.name, "fields", "at least one field must be specified", "MISSING_FIELDS"⟩]
          else errors
        let errors := if ¬ isValidMode rule.mode then
            errors ++ [⟨rule.name, "mode", "invalid redaction mode", "INVALID_MODE"⟩]
          else errors
        let errors := errors ++ rule.conditions.flatMap (fun condition =>
          (if condition.field = "" then
            [⟨rule.name, "conditions[i].field", "condition field cannot be empty",
              "MISSING_CONDITION_FIELD"⟩] else []) ++
          (if condition.operator = "" then
            [⟨rule.name, "conditions[i].operator", "condition operator cannot be empty",
              "MISSING_CONDITION_OPERATOR"⟩] else []))
        errors)
    []

/-! ### The spec's description of conflict resolution

The spec (§4.2) demands that every overlap between the incoming
candidate and the accepted list be "evaluated independently against the
incoming candidate (not short-circuited after the first comparison)".
The following definitions state that algorithm literally, to be
compared with the source's `insertResolved` (which `break`s at the
first overlap). -/

/-- Spec §4.2 step 5, displacement: the surviving candidate takes the
position of the first accepted entry it overlaps, and every other
overlapped entry is removed. -/
def replaceFirstDrop (current : Redaction) : List Redaction → List Redaction
  | [] => []
  | existing :: rest =>
    if redactionsOverlap current existing then
      current :: rest.filter (fun x => !(redactionsOverlap current x))
    else existing :: replaceFirstDrop current rest

/-- Spec §4.2 steps 2-5, stated from the spec's words: collect *all*
accepted entries overlapping the candidate; none → accept (append);
otherwise the candidate survives iff it wins every one of those
pairwise comparisons, in which case it displaces all of them. -/
def insertResolvedSpec (current : Redaction) (resolved : List Redaction) : List Redaction :=
  let overlapped := resolved.filter (fun existing => redactionsOverlap current existing)
  if overlapped.isEmpty then resolved ++ [current]
  else if overlapped.all (fun existing => shouldReplaceRedaction current existing) then
    replaceFirstDrop current resolved
  else resolved

/-- The conflict resolver as the spec describes it: sort ascending by
start, then fold with the non-short-circuiting insertion. -/
def resolveOverlappingSpec (redactions : List Redaction) : List Redaction :=
  (sortByStartAsc redactions).foldl (fun resolved current => insertResolvedSpec current resolved) []

/-- The rewriter's contract, stated structurally over a
start-descending, disjoint redaction list: the region left of the
(rightmost) redaction is rewritten by the remaining redactions, then
its replacement appears, then the original text right of it —
i.e. every span is replaced at its original coordinates. -/
def reconstruct (text : List Char) : List Redaction → List Char
  | [] => text
  | r :: rest =>
    reconstruct (text.take r.start.toNat) rest ++ r.replacement ++ text.drop r.stop.toNat

/-! ### Concrete matchers

Concrete `Matcher` values used to instantiate the abstract regex
engine in witnesses and counterexamples.  `md5Matcher` and
`btcMatcher` compute what Go's `regexp` returns for the engine's
patterns `\b[a-fA-F0-9]{32}\b` (md5_hex) and
`\b[13][a-km-zA-HJ-NP-Z1-9]{25,34}\b` (btc_address) on texts whose
matches are delimited by non-word characters: both patterns are
word-boundary-anchored, so a match is exactly a maximal word-character
run whose content fits the pattern. -/

/-- Go regexp word character (`\b` boundary class): `[0-9A-Za-z_]`. -/
def isWordChar (c : Char) : Bool := c.isAlpha || c.isDigit || c = '_'

/-- Character class `[a-fA-F0-9]`. -/
def isHexChar (c : Char) : Bool :=
  c.isDigit || ('a' ≤ c && c ≤ 'f') || ('A' ≤ c && c ≤ 'F')

/-- Character class `[a-km-zA-HJ-NP-Z1-9]` (base-58 alphabet). -/
def isBase58Char (c : Char) : Bool :=
  ('a' ≤ c && c ≤ 'k') || ('m' ≤ c && c ≤ 'z') || ('A' ≤ c && c ≤ 'H') ||
  ('J' ≤ c && c ≤ 'N') || ('P' ≤ c && c ≤ 'Z') || ('1' ≤ c && c ≤ '9')

/-- Maximal runs of word characters in the text, as half-open spans. -/
def wordRunsAux : List Char → Nat → Option Nat → List (Nat × Nat)
  | [], _, none => []
  | [], i, some s => [(s, i)]
  | c :: cs, i, none =>
    if isWordChar c then wordRunsAux cs (i + 1) (some i) else wordRunsAux cs (i + 1) none
  | c :: cs, i, some s =>
    if isWordChar c then wordRunsAux cs (i + 1) (some s)
    else (s, i) :: wordRunsAux cs (i + 1) none

/-- Maximal runs of word characters in the text. -/
def wordRuns (text : List Char) : List (Nat × Nat) := wordRunsAux text 0 none

/-- The `FindAllStringIndex` result of `\b[a-fA-F0-9]{32}\b`: word runs of exactly
32 hex digits. -/
def md5Matcher : Matcher := fun text =>
  (wordRuns text).filter fun m =>
    m.2 - m.1 = 32 && ((text.take m.2).drop m.1).all isHexChar

/-- The `FindAllStringIndex` result of `\b[13][a-km-zA-HJ-NP-Z1-9]{25,34}\b`:
word runs of 26 to 35 characters that start with `1` or `3` and
continue in the base-58 alphabet. -/
def btcMatcher : Matcher := fun text =>
  (wordRuns text).filter fun m =>
    match (text.take m.2).drop m.1 with
    | [] => false
    | c :: rest =>
      (c = '1' || c = '3') && rest.all isBase58Char &&
        26 ≤ (rest.length + 1) && rest.length + 1 ≤ 35

/-- Convenience constructor for concrete candidates in examples: a
type and a span, carrying the engine's replacement for that type, the
detection confidence, and empty original/context. -/
def mkRedaction (t : RedactionType) (s e : Int) : Redaction :=
  { rtype := t, start := s, stop := e, original := [],
    replacement := generateReplacement t, confidence := mkRat 95 100, context := [] }

/-- The character `1` followed by 31 copies of `a`: a 32-character word run that is both a
well-formed md5_hex match and a well-formed btc_address match. -/
def tieText : List Char := "1aaaaaaaaaaaaaaaaaaaaaaaaaaaaaaa".toList

/-- The character `0` followed by 31 copies of `a`: matched by md5_hex but not by
btc_address (`0` is outside `[13]`). -/
def noTieText : List Char := "0aaaaaaaaaaaaaaaaaaaaaaaaaaaaaaa".toList

/-- A concrete stand-in for `regexp.Compile` in witnesses: accepts a
pattern iff its square brackets are balanced (Go rejects an unbalanced
`[` with `missing closing ]`), and compiles to a matcher that finds
nothing. -/
def bracketCompile : String → Option Matcher := fun s =>
  if (s.toList.foldl
      (fun depth c =>
        match depth with
        | none => none
        | some d => if c = '[' then some (d + 1)
                    else if c = ']' then (if d = 0 then none else some (d - 1))
                    else some d)
      (some 0)) = some 0
  then some (fun _ => []) else none

end Redact

namespace Redact

/-- Two redactions do not overlap (the relation whose `List.Pairwise`
closure is the spec's non-overlap invariant). -/
def NotOverlapping (a b : Redaction) : Prop := redactionsOverlap a b = false

instance : DecidableRel NotOverlapping := fun a b => by
  unfold NotOverlapping; infer_instance

/-- A redaction list is pairwise non-overlapping. -/
def NoOverlap (l : List Redaction) : Prop := l.Pairwise NotOverlapping

instance : DecidablePred NoOverlap := fun l => by
  unfold NoOverlap; infer_instance

/-! ### Correctness of the swap sort -/

section SortLemmas

variable (cmp : Redaction → Redaction → Bool)

theorem selectSwap_snd_length (x : Redaction) (l : List Redaction) :
    ((selectSwap cmp x l).2).length = l.length := by
  induction l generalizing x with
  | nil => simp [selectSwap]
  | cons y ys ih =>
    by_cases h : cmp x y <;> simp [selectSwap, h, ih]

theorem selectSwap_mem (x : Redaction) (l : List Redaction) (z : Redaction)
    (hz : z = (selectSwap cmp x l).1 ∨ z ∈ (selectSwap cmp x l).2) : z = x ∨ z ∈ l := by
  induction l generalizing x with
  | nil => simpa [selectSwap] using hz
  | cons y ys ih =>
    by_cases h : cmp x y
    · simp only [selectSwap, if_pos h, List.mem_cons] at hz
      rcases hz with h1 | h2 | h3
      · rcases ih y (Or.inl h1) with h' | h' <;> simp [h']
      · simp [h2]
      · rcases ih y (Or.inr h3) with h' | h' <;> simp [h']
    · simp only [selectSwap, if_neg h, List.mem_cons] at hz
      rcases hz with h1 | h2 | h3
      · rcases ih x (Or.inl h1) with h' | h' <;> simp [h']
      · simp [h2]
      · rcases ih x (Or.inr h3) with h' | h' <;> simp [h']

theorem selectSwap_not_cmp
    (hasym : ∀ a b, cmp a b = true → cmp b a = false)
    (hnt : ∀ a b c, cmp a b = false → cmp b c = false → cmp a c = false)
    (hirr : ∀ a, cmp a a = false)
    (x : Redaction) (l : List Redaction) :
    cmp (selectSwap cmp x l).1 x = false ∧
      ∀ y ∈ (selectSwap cmp x l).2, cmp (selectSwap cmp x l).1 y = false := by
  induction l generalizing x with
  | nil => simp [selectSwap, hirr]
  | cons y ys ih =>
    by_cases h : cmp x y
    · have ihy := ih y
      have hmx : cmp (selectSwap cmp y ys).1 x = false :=
        hnt _ _ _ ihy.1 (hasym _ _ h)
      refine ⟨?_, ?_⟩
      · simpa [selectSwap, if_pos h] using hmx
      · intro z hz
        simp only [selectSwap, if_pos h, List.mem_cons] at hz ⊢
        rcases hz with rfl | hz
        · exact hmx
        · exact ihy.2 z hz
    · have ihx := ih x
      have hxy : cmp x y = false := by simpa using h
      have hmy : cmp (selectSwap cmp x ys).1 y = false := hnt _ _ _ ihx.1 hxy
      refine ⟨?_, ?_⟩
      · simpa [selectSwap, if_neg h] using ihx.1
      · intro z hz
        simp only [selectSwap, if_neg h, List.mem_cons] at hz ⊢
        rcases hz with rfl | hz
        · exact hmy
        · exact ihx.2 z hz

theorem swapSortFuel_subset :
    ∀ (n : Nat) (l : List Redaction), l.length = n →
      ∀ z ∈ swapSortFuel cmp n l, z ∈ l := by
  intro n
  induction n with
  | zero =>
    intro l hl z hz
    cases l with
    | nil => simp [swapSortFuel] at hz
    | cons x xs => simp at hl
  | succ n ih =>
    intro l hl z hz
    cases l with
    | nil => simp [swapSortFuel] at hz
    | cons x xs =>
      simp only [swapSortFuel, List.mem_cons] at hz
      have hlen : ((selectSwap cmp x xs).2).length = n := by
        rw [selectSwap_snd_length]; simpa using hl
      rcases hz with rfl | hz
      · rcases selectSwap_mem cmp x xs _ (Or.inl rfl) with h' | h' <;> simp [h']
      · have := ih _ hlen z hz
        rcases selectSwap_mem cmp x xs z (Or.inr this) with h' | h' <;> simp [h']

theorem swapSortFuel_pairwise
    (hasym : ∀ a b, cmp a b = true → cmp b a = false)
    (hnt : ∀ a b c, cmp a b = false → cmp b c = false → cmp a c = false)
    (hirr : ∀ a, cmp a a = false) :
    ∀ (n : Nat) (l : List Redaction), l.length = n →
      (swapSortFuel cmp n l).Pairwise (fun a b => cmp a b = false) := by
  intro n
  induction n with
  | zero =>
    intro l hl
    cases l with
    | nil => simp [swapSortFuel]
    | cons x xs => simp at hl
  | succ n ih =>
    intro l hl
    cases l with
    | nil => simp [swapSortFuel]
    | cons x xs =>
      have hlen : ((selectSwap cmp x xs).2).length = n := by
        rw [selectSwap_snd_length]; simpa using hl
      simp only [swapSortFuel, List.pairwise_cons]
      refine ⟨?_, ih _ hlen⟩
      intro z hz
      have hzmem : z ∈ (selectSwap cmp x xs).2 := swapSortFuel_subset cmp n _ hlen z hz
      exact (selectSwap_not_cmp cmp hasym hnt hirr x xs).2 z hzmem

theorem swapSort_pairwise
    (hasym : ∀ a b, cmp a b = true → cmp b a = false)
    (hnt : ∀ a b c, cmp a b = false → cmp b c = false → cmp a c = false)
    (hirr : ∀ a, cmp a a = false)
    (l : List Redaction) :
    (swapSort cmp l).Pairwise (fun a b => cmp a b = false) :=
  swapSortFuel_pairwise cmp hasym hnt hirr l.length l rfl

theorem selectSwap_perm (x : Redaction) (l : List Redaction) :
    List.Perm ((selectSwap cmp x l).1 :: (selectSwap cmp x l).2) (x :: l) := by
  induction l generalizing x with
  | nil => simp [selectSwap]
  | cons y ys ih =>
    by_cases h : cmp x y
    · simp only [selectSwap, if_pos h]
      exact (List.Perm.swap x _ _).trans ((ih y).cons x)
    · simp only [selectSwap, if_neg h]
      exact ((List.Perm.swap y _ _).trans ((ih x).cons y)).trans (List.Perm.swap x y ys)

theorem swapSortFuel_perm :
    ∀ (n : Nat) (l : List Redaction), l.length = n →
      List.Perm (swapSortFuel cmp n l) l := by
  intro n
  induction n with
  | zero =>
    intro l hl
    cases l with
    | nil => simp [swapSortFuel]
    | cons x xs => simp at hl
  | succ n ih =>
    intro l hl
    cases l with
    | nil => simp [swapSortFuel]
    | cons x xs =>
      have hlen : ((selectSwap cmp x xs).2).length = n := by
        rw [selectSwap_snd_length]; simpa using hl
      simp only [swapSortFuel]
      exact ((ih _ hlen).cons _).trans (selectSwap_perm cmp x xs)

theorem swapSort_perm (l : List Redaction) : List.Perm (swapSort cmp l) l :=
  swapSortFuel_perm cmp l.length l rfl

end SortLemmas

theorem sortByStartAsc_sorted (l : List Redaction) :
    (sortByStartAsc l).Pairwise (fun a b => a.start ≤ b.start) := by
  have h := swapSort_pairwise (fun a b => decide (a.start > b.start))
    (by intro a b h; simp at h ⊢; omega)
    (by intro a b c h1 h2; simp at h1 h2 ⊢; omega)
    (by intro a; simp) l
  exact h.imp (by intro a b h; simpa using h)

theorem sortByStartDesc_sorted (l : List Redaction) :
    (sortByStartDesc l).Pairwise (fun a b => b.start ≤ a.start) := by
  have h := swapSort_pairwise (fun a b => decide (a.start < b.start))
    (by intro a b h; simp at h ⊢; omega)
    (by intro a b c h1 h2; simp at h1 h2 ⊢; omega)
    (by intro a; simp) l
  exact h.imp (by intro a b h; simpa using h)

theorem sortByStartAsc_perm (l : List Redaction) : List.Perm (sortByStartAsc l) l :=
  swapSort_perm _ l

theorem sortByStartDesc_perm (l : List Redaction) : List.Perm (sortByStartDesc l) l :=
  swapSort_perm _ l

/-! ### The conflict-resolution invariant

Because candidates are folded in ascending `Start` order, every
accepted entry starts no later than the incoming candidate.  Two
disjoint accepted entries cannot then both overlap the candidate (both
would have to contain the candidate's start position), so the incoming
candidate overlaps *at most one* accepted entry.  This is what makes
the Go loop's `break` harmless and keeps the accepted list pairwise
disjoint. -/

theorem redactionsOverlap_symm (a b : Redaction) :
    redactionsOverlap a b = redactionsOverlap b a := by
  simp [redactionsOverlap, Bool.and_comm]

theorem notOverlapping_symmetric : Symmetric NotOverlapping := by
  intro a b h
  unfold NotOverlapping at h ⊢
  rw [redactionsOverlap_symm]; exact h

theorem mem_insertResolved (c z : Redaction) (res : List Redaction)
    (hz : z ∈ insertResolved c res) : z = c ∨ z ∈ res := by
  induction res with
  | nil => simpa [insertResolved] using hz
  | cons e rest ih =>
    simp only [insertResolved] at hz
    by_cases h1 : redactionsOverlap c e
    · by_cases h2 : shouldReplaceRedaction c e
      · simp only [if_pos h1, if_pos h2, List.mem_cons] at hz
        rcases hz with rfl | hz
        · simp
        · simp [hz]
      · simp only [if_pos h1, if_neg h2] at hz
        exact Or.inr hz
    · simp only [if_neg h1, List.mem_cons] at hz
      rcases hz with rfl | hz
      · simp
      · rcases ih hz with h' | h' <;> simp [h']

/-- Two intervals that both contain the point `p` overlap. -/
theorem overlap_of_common_point (e y : Redaction) (p : Int)
    (he1 : e.start ≤ p) (he2 : p < e.stop) (hy1 : y.start ≤ p) (hy2 : p < y.stop) :
    redactionsOverlap e y = true := by
  simp only [redactionsOverlap, Bool.and_eq_true, decide_eq_true_eq]
  omega

/-- An accepted entry that overlaps the candidate contains the
candidate's start (accepted entries start no later than it). -/
theorem overlap_contains_start (c e : Redaction) (hle : e.start ≤ c.start)
    (h : redactionsOverlap c e = true) : e.start ≤ c.start ∧ c.start < e.stop := by
  simp only [redactionsOverlap, Bool.and_eq_true, decide_eq_true_eq] at h
  exact ⟨hle, h.1⟩

/-- Under the fold's invariant, at most one accepted entry overlaps
the candidate: the entries after the first overlapping one are all
disjoint from the candidate. -/
theorem rest_no_overlap (c e : Redaction) (rest : List Redaction)
    (hpw : ∀ y ∈ rest, NotOverlapping e y)
    (hle : e.start ≤ c.start) (hley : ∀ y ∈ rest, y.start ≤ c.start)
    (h : redactionsOverlap c e = true) :
    ∀ y ∈ rest, redactionsOverlap c y = false := by
  intro y hy
  by_contra hcy
  simp only [Bool.not_eq_false] at hcy
  have h1 := overlap_contains_start c e hle h
  have h2 := overlap_contains_start c y (hley y hy) hcy
  have := overlap_of_common_point e y c.start h1.1 h1.2 h2.1 h2.2
  have hney := hpw y hy
  unfold NotOverlapping at hney
  rw [hney] at this
  exact Bool.false_ne_true this

theorem insertResolved_noOverlap (c : Redaction) (res : List Redaction)
    (hno : NoOverlap res) (hle : ∀ e ∈ res, e.start ≤ c.start) :
    NoOverlap (insertResolved c res) := by
  induction res with
  | nil =>
    simp [insertResolved, NoOverlap]
  | cons e rest ih =>
    unfold NoOverlap at hno
    rw [List.pairwise_cons] at hno
    obtain ⟨hpw, hrest⟩ := hno
    simp only [insertResolved]
    by_cases h1 : redactionsOverlap c e
    · have hdisj : ∀ y ∈ rest, redactionsOverlap c y = false :=
        rest_no_overlap c e rest hpw (hle e (List.mem_cons_self e rest))
          (fun y hy => hle y (List.mem_cons_of_mem e hy)) h1
      by_cases h2 : shouldReplaceRedaction c e
      · simp only [if_pos h1, if_pos h2]
        unfold NoOverlap
        rw [List.pairwise_cons]
        exact ⟨fun y hy => hdisj y hy, hrest⟩
      · simp only [if_pos h1, if_neg h2]
        unfold NoOverlap
        rw [List.pairwise_cons]
        exact ⟨hpw, hrest⟩
    · simp only [if_neg h1]
      unfold NoOverlap
      rw [List.pairwise_cons]
      constructor
      · intro y hy
        rcases mem_insertResolved c y rest hy with rfl | hy'
        · exact notOverlapping_symmetric (by simpa [NotOverlapping] using h1)
        · exact hpw y hy'
      · exact ih hrest (fun y hy => hle y (List.mem_cons_of_mem e hy))

theorem filter_eq_nil_of_all_false (p : Redaction → Bool) (l : List Redaction)
    (h : ∀ y ∈ l, p y = false) : l.filter p = [] := by
  induction l with
  | nil => rfl
  | cons x xs ih =>
    simp only [List.filter_cons, h x (List.mem_cons_self x xs)]
    exact ih (fun y hy => h y (List.mem_cons_of_mem x hy))

theorem filter_id_of_none (p : Redaction → Bool) (l : List Redaction)
    (h : ∀ y ∈ l, p y = false) : l.filter (fun x => !(p x)) = l := by
  induction l with
  | nil => rfl
  | cons x xs ih =>
    have hx := h x (List.mem_cons_self x xs)
    simp only [List.filter_cons, hx, Bool.not_false, if_true]
    rw [ih (fun y hy => h y (List.mem_cons_of_mem x hy))]

/-- With the fold's invariant in force, the source's short-circuiting
insertion computes exactly the spec's evaluate-every-overlap
insertion. -/
theorem insertResolved_eq_spec (c : Redaction) (res : List Redaction)
    (hno : NoOverlap res) (hle : ∀ e ∈ res, e.start ≤ c.start) :
    insertResolved c res = insertResolvedSpec c res := by
  induction res with
  | nil => simp [insertResolved, insertResolvedSpec]
  | cons e rest ih =>
    unfold NoOverlap at hno
    rw [List.pairwise_cons] at hno
    obtain ⟨hpw, hrest⟩ := hno
    by_cases h1 : redactionsOverlap c e
    · have hdisj : ∀ y ∈ rest, redactionsOverlap c y = false :=
        rest_no_overlap c e rest hpw (hle e (List.mem_cons_self e rest))
          (fun y hy => hle y (List.mem_cons_of_mem e hy)) h1
      have hfil : rest.filter (fun existing => redactionsOverlap c existing) = [] :=
        filter_eq_nil_of_all_false _ rest hdisj
      simp only [insertResolved, insertResolvedSpec, List.filter_cons, h1, if_pos h1,
        hfil]
      by_cases h2 : shouldReplaceRedaction c e
      · simp only [if_pos h2]
        simp only [List.isEmpty_cons, List.all_cons, List.all_nil, h2, Bool.and_true,
          if_true, Bool.false_eq_true, if_false]
        simp only [replaceFirstDrop, if_pos h1]
        rw [filter_id_of_none _ rest hdisj]
      · simp only [if_neg h2]
        simp [h2]
    · have h1' : redactionsOverlap c e = false := by simpa using h1
      have ihr := ih hrest (fun y hy => hle y (List.mem_cons_of_mem e hy))
      have hlhs : insertResolved c (e :: rest) = e :: insertResolved c rest := by
        simp [insertResolved, h1']
      rw [hlhs, ihr]
      unfold insertResolvedSpec
      simp only [List.filter_cons, h1', Bool.false_eq_true, if_false]
      by_cases hf : (rest.filter (fun existing => redactionsOverlap c existing)).isEmpty
      · simp [hf]
      · simp only [hf, Bool.false_eq_true, if_false]
        by_cases ha : (rest.filter (fun existing => redactionsOverlap c existing)).all
            (fun existing => shouldReplaceRedaction c existing)
        · simp only [ha, if_true]
          simp [replaceFirstDrop, h1']
        · simp [ha]

/-- The main fold invariant: starting from a pairwise-disjoint
accepted list whose entries start no later than any remaining
candidate, folding a start-sorted candidate list preserves
disjointness, and the short-circuiting fold equals the spec's fold. -/
theorem resolveLoop_invariant :
    ∀ (l res : List Redaction), NoOverlap res →
      (∀ e ∈ res, ∀ c ∈ l, e.start ≤ c.start) →
      l.Pairwise (fun a b => a.start ≤ b.start) →
      NoOverlap (l.foldl (fun r c => insertResolved c r) res) ∧
        l.foldl (fun r c => insertResolved c r) res =
          l.foldl (fun r c => insertResolvedSpec c r) res := by
  intro l
  induction l with
  | nil => intro res hno _ _; exact ⟨hno, rfl⟩
  | cons c rest ih =>
    intro res hno hle hsorted
    rw [List.pairwise_cons] at hsorted
    obtain ⟨hhead, htail⟩ := hsorted
    have hlec : ∀ e ∈ res, e.start ≤ c.start :=
      fun e he => hle e he c (List.mem_cons_self c rest)
    have hno' : NoOverlap (insertResolved c res) := insertResolved_noOverlap c res hno hlec
    have hle' : ∀ e ∈ insertResolved c res, ∀ c' ∈ rest, e.start ≤ c'.start := by
      intro e he c' hc'
      rcases mem_insertResolved c e res he with rfl | he'
      · exact hhead c' hc'
      · exact hle e he' c' (List.mem_cons_of_mem c hc')
    have heq : insertResolved c res = insertResolvedSpec c res :=
      insertResolved_eq_spec c res hno hlec
    have ihres := ih (insertResolved c res) hno' hle' htail
    refine ⟨ihres.1, ?_⟩
    simp only [List.foldl_cons]
    rw [← heq]
    exact ihres.2

/-- The conflict resolver's output is pairwise non-overlapping, for
any input list. -/
theorem resolve_no_overlap (rs : List Redaction) :
    NoOverlap (resolveOverlappingRedactions rs) := by
  unfold resolveOverlappingRedactions
  by_cases h : rs.length ≤ 1
  · simp only [if_pos h]
    rcases rs with _ | ⟨a, _ | ⟨b, t⟩⟩
    · exact List.Pairwise.nil
    · exact List.pairwise_singleton _ _
    · simp at h
  · simp only [if_neg h]
    exact (resolveLoop_invariant (sortByStartAsc rs) [] List.Pairwise.nil
      (by simp) (sortByStartAsc_sorted rs)).1

/-- C1: for every input list of candidate redactions, the conflict
resolver's output contains no two redactions whose half-open
`[start, end)` ranges intersect; the final (start-descending) set that
`redactTextInternal` hands to its rewrite loop is likewise pairwise
non-overlapping. -/
theorem C1_resolver_output_no_overlap :
    (∀ rs : List Redaction, NoOverlap (resolveOverlappingRedactions rs)) ∧
    ∀ (patterns : List (RedactionType × Matcher)) (text : List Char) (now : Int),
      NoOverlap ((redactTextInternal patterns text now).redactions) := by
  refine ⟨resolve_no_overlap, ?_⟩
  intro patterns text now
  show NoOverlap (sortByStartDesc (resolveOverlappingRedactions
    (collectRedactions patterns text)))
  have hperm := sortByStartDesc_perm
    (resolveOverlappingRedactions (collectRedactions patterns text))
  exact (hperm.pairwise_iff (fun hab => notOverlapping_symmetric hab)).mpr
    (resolve_no_overlap _)

/-- C2: the conflict resolver is extensionally the spec's
non-short-circuiting algorithm (every overlap between a candidate and
the accepted list evaluated independently): after the ascending sort
an incoming candidate can overlap at most one accepted entry, so the
loop's `break` never hides an overlap.  On the spec's multi-overlap
example A(0,10), B(15,25), C(20,30), D(25,42), no pair of the output
overlaps and the longest span D survives; and a single long candidate
(credit-card shaped, (0,19)) that subsumes two shorter spans
(phone-shaped (0,12) and ssn-shaped (8,19)) displaces both. -/
theorem C2_multi_overlap_independent :
    (∀ rs : List Redaction, resolveOverlappingRedactions rs = resolveOverlappingSpec rs) ∧
    (resolveOverlappingRedactions
        [mkRedaction "a" 0 10, mkRedaction "b" 15 25, mkRedaction "c" 20 30,
          mkRedaction "d" 25 42] =
      [mkRedaction "a" 0 10, mkRedaction "b" 15 25, mkRedaction "d" 25 42]) ∧
    (resolveOverlappingRedactions
        [mkRedaction "phone" 0 12, mkRedaction "ssn" 8 19, mkRedaction "credit_card" 0 19] =
      [mkRedaction "credit_card" 0 19]) := by
  refine ⟨?_, by decide, by decide⟩
  intro rs
  unfold resolveOverlappingRedactions resolveOverlappingSpec
  by_cases h : rs.length ≤ 1
  · simp only [if_pos h]
    rcases rs with _ | ⟨a, _ | ⟨b, t⟩⟩
    · rfl
    · simp [sortByStartAsc, swapSort, swapSortFuel, selectSwap, insertResolvedSpec]
    · simp at h
  · simp only [if_neg h]
    exact (resolveLoop_invariant (sortByStartAsc rs) [] List.Pairwise.nil
      (by simp) (sortByStartAsc_sorted rs)).2

/-! ### Two-candidate conflicts (length and priority tie-breaks) -/

theorem shouldReplace_longer (a b : Redaction)
    (h : a.stop - a.start > b.stop - b.start) : shouldReplaceRedaction a b = true := by
  unfold shouldReplaceRedaction
  rw [if_pos (by omega)]
  simpa using h

theorem shouldReplace_shorter (a b : Redaction)
    (h : a.stop - a.start < b.stop - b.start) : shouldReplaceRedaction a b = false := by
  unfold shouldReplaceRedaction
  rw [if_pos (by omega)]
  simp
  omega

theorem shouldReplace_tie (a b : Redaction)
    (h : a.stop - a.start = b.stop - b.start) :
    shouldReplaceRedaction a b =
      decide (getTypePriority a.rtype > getTypePriority b.rtype) := by
  unfold shouldReplaceRedaction
  rw [if_neg (by omega)]

/-- Resolving exactly two overlapping candidates: after the ascending
sort, the second-placed candidate replaces the first iff
`shouldReplaceRedaction` says so. -/
theorem resolve_pair_eq (a b : Redaction) (hov : redactionsOverlap a b = true) :
    resolveOverlappingRedactions [a, b] =
      if a.start > b.start then
        (if shouldReplaceRedaction a b then [a] else [b])
      else (if shouldReplaceRedaction b a then [b] else [a]) := by
  have hov' : redactionsOverlap b a = true := by rw [redactionsOverlap_symm]; exact hov
  by_cases hc : a.start > b.start
  · simp [resolveOverlappingRedactions, sortByStartAsc, swapSort, swapSortFuel, selectSwap,
      insertResolved, hc, hov, hov']
  · simp [resolveOverlappingRedactions, sortByStartAsc, swapSort, swapSortFuel, selectSwap,
      insertResolved, hc, hov, hov']

/-- C3: when exactly two candidates overlap, the one spanning more
characters wins regardless of order; on an exact length tie the higher
`getTypePriority` wins; the fixed priorities place every UK-specific
type above the generic email/phone types, which sit above
date/ip_address; concretely, same-span generic-phone and UK-phone
candidates resolve to the UK-phone one in either input order. -/
theorem C3_length_then_priority :
    (∀ a b : Redaction, redactionsOverlap a b = true →
      b.stop - b.start > a.stop - a.start →
      resolveOverlappingRedactions [a, b] = [b]) ∧
    (∀ a b : Redaction, redactionsOverlap a b = true →
      a.stop - a.start = b.stop - b.start →
      getTypePriority b.rtype > getTypePriority a.rtype →
      resolveOverlappingRedactions [a, b] = [b]) ∧
    (∀ t ∈ (["uk_national_insurance", "uk_nhs_number", "uk_passport_number",
        "uk_driving_license", "uk_iban", "uk_sort_code", "uk_phone_number",
        "uk_mobile_number", "uk_company_number", "uk_postcode"] : List RedactionType),
      ∀ u ∈ (["phone", "email"] : List RedactionType),
      getTypePriority t > getTypePriority u) ∧
    (∀ u ∈ (["phone", "email"] : List RedactionType),
      ∀ v ∈ (["date", "ip_address"] : List RedactionType),
      getTypePriority u > getTypePriority v) ∧
    (resolveOverlappingRedactions
        [mkRedaction "phone" 10 22, mkRedaction "uk_phone_number" 10 22] =
      [mkRedaction "uk_phone_number" 10 22]) ∧
    (resolveOverlappingRedactions
        [mkRedaction "uk_phone_number" 10 22, mkRedaction "phone" 10 22] =
      [mkRedaction "uk_phone_number" 10 22]) := by
  refine ⟨?_, ?_, by decide, by decide, by decide, by decide⟩
  · intro a b hov hlen
    rw [resolve_pair_eq a b hov]
    by_cases hc : a.start > b.start
    · rw [if_pos hc, shouldReplace_shorter a b (by omega)]
      simp
    · rw [if_neg hc, shouldReplace_longer b a (by omega)]
      simp
  · intro a b hov hlen hpri
    rw [resolve_pair_eq a b hov]
    by_cases hc : a.start > b.start
    · rw [if_pos hc, shouldReplace_tie a b hlen]
      simp
      omega
    · rw [if_neg hc, shouldReplace_tie b a (by omega)]
      simp [hpri]

/-- Witness for C3: the spec's length tie-break scenario (a 5-character
zip_code candidate loses to an 11-character ssn candidate over an
overlapping span) and its priority tie-break scenario, via the general
theorem. -/
theorem C3_length_then_priority_witness :
    resolveOverlappingRedactions [mkRedaction "zip_code" 0 5, mkRedaction "ssn" 0 11] =
      [mkRedaction "ssn" 0 11] ∧
    resolveOverlappingRedactions [mkRedaction "phone" 3 15, mkRedaction "uk_phone_number" 3 15] =
      [mkRedaction "uk_phone_number" 3 15] :=
  ⟨C3_length_then_priority.1 _ _ (by decide) (by decide),
   C3_length_then_priority.2.1 _ _ (by decide) (by decide) (by decide)⟩

/-! ### Rewriter correctness

Splicing a start-descending, pairwise-disjoint redaction list
right-to-left replaces every span at its original coordinates: no
splice changes the text left of the spans that remain to be
processed. -/

/-- A splice whose span lies inside `t` does not disturb an appended
suffix `u`, so the whole fold factors through the prefix. -/
theorem spliceAll_append (rs : List Redaction) :
    ∀ (t u : List Char),
      rs.Pairwise (fun a b => b.stop ≤ a.start) →
      (∀ r ∈ rs, 0 ≤ r.start ∧ r.start ≤ r.stop ∧ r.stop ≤ (t.length : Int)) →
      spliceAll (t ++ u) rs = spliceAll t rs ++ u := by
  induction rs with
  | nil => intro t u _ _; rfl
  | cons r rest ih =>
    intro t u hchain hbound
    rw [List.pairwise_cons] at hchain
    obtain ⟨hhead, htail⟩ := hchain
    obtain ⟨hr0, hrle, hrlen⟩ := hbound r (List.mem_cons_self r rest)
    have hsN : r.start.toNat ≤ t.length := by omega
    have heN : r.stop.toNat ≤ t.length := by omega
    have happU : applyRedaction (t ++ u) r =
        (t.take r.start.toNat ++ r.replacement ++ t.drop r.stop.toNat) ++ u := by
      unfold applyRedaction
      rw [if_pos ⟨hr0, by rw [List.length_append]; push_cast; omega⟩]
      rw [List.take_append_of_le_length hsN, List.drop_append_of_le_length heN]
      simp [List.append_assoc]
    have happT : applyRedaction t r =
        t.take r.start.toNat ++ r.replacement ++ t.drop r.stop.toNat := by
      unfold applyRedaction
      rw [if_pos ⟨hr0, hrlen⟩]
    have hlen1 : r.start.toNat ≤
        (t.take r.start.toNat ++ r.replacement ++ t.drop r.stop.toNat).length := by
      simp only [List.length_append, List.length_take, List.length_drop]
      omega
    simp only [spliceAll, List.foldl_cons]
    rw [happU, happT]
    apply ih _ u htail
    intro r' hr'
    obtain ⟨h0', hle', _⟩ := hbound r' (List.mem_cons_of_mem r hr')
    refine ⟨h0', hle', ?_⟩
    calc r'.stop ≤ r.start := hhead r' hr'
      _ = (r.start.toNat : Int) := (Int.toNat_of_nonneg hr0).symm
      _ ≤ _ := by exact_mod_cast hlen1

/-- The rewrite loop on a start-descending disjoint in-bounds list
replaces every span at its original coordinates. -/
theorem spliceAll_eq_reconstruct (rs : List Redaction) :
    ∀ text : List Char,
      rs.Pairwise (fun a b => b.stop ≤ a.start) →
      (∀ r ∈ rs, 0 ≤ r.start ∧ r.start ≤ r.stop ∧ r.stop ≤ (text.length : Int)) →
      spliceAll text rs = reconstruct text rs := by
  induction rs with
  | nil => intro text _ _; rfl
  | cons r rest ih =>
    intro text hchain hbound
    rw [List.pairwise_cons] at hchain
    obtain ⟨hhead, htail⟩ := hchain
    obtain ⟨hr0, hrle, hrlen⟩ := hbound r (List.mem_cons_self r rest)
    have hsN : r.start.toNat ≤ text.length := by omega
    have happT : applyRedaction text r =
        text.take r.start.toNat ++ (r.replacement ++ text.drop r.stop.toNat) := by
      unfold applyRedaction
      rw [if_pos ⟨hr0, hrlen⟩, List.append_assoc]
    have hboundrest : ∀ r' ∈ rest, 0 ≤ r'.start ∧ r'.start ≤ r'.stop ∧
        r'.stop ≤ ((text.take r.start.toNat).length : Int) := by
      intro r' hr'
      obtain ⟨h0', hle', _⟩ := hbound r' (List.mem_cons_of_mem r hr')
      refine ⟨h0', hle', ?_⟩
      have hlen : (text.take r.start.toNat).length = r.start.toNat := by
        simp [List.length_take]; omega
      rw [hlen]
      calc r'.stop ≤ r.start := hhead r' hr'
        _ = (r.start.toNat : Int) := (Int.toNat_of_nonneg hr0).symm
    calc spliceAll text (r :: rest)
        = spliceAll (applyRedaction text r) rest := by
          simp only [spliceAll, List.foldl_cons]
      _ = spliceAll (text.take r.start.toNat ++ (r.replacement ++ text.drop r.stop.toNat))
            rest := by rw [happT]
      _ = spliceAll (text.take r.start.toNat) rest ++
            (r.replacement ++ text.drop r.stop.toNat) :=
          spliceAll_append rest _ _ htail hboundrest
      _ = reconstruct (text.take r.start.toNat) rest ++
            (r.replacement ++ text.drop r.stop.toNat) := by
          rw [ih _ htail hboundrest]
      _ = reconstruct text (r :: rest) := by
          simp [reconstruct, List.append_assoc]

/-- Start-descending plus pairwise disjoint plus nonempty spans gives
the right-to-left chain `b.stop ≤ a.start`. -/
theorem chain_of_sorted_disjoint (rs : List Redaction)
    (hdesc : rs.Pairwise (fun a b => b.start ≤ a.start))
    (hno : NoOverlap rs)
    (hval : ∀ r ∈ rs, r.start < r.stop) :
    rs.Pairwise (fun a b => b.stop ≤ a.start) := by
  have hcomb := hdesc.and hno
  refine List.Pairwise.imp_of_mem ?_ hcomb
  intro a b ha hb hab
  obtain ⟨hle, hnov⟩ := hab
  have hA := hval a ha
  have hB := hval b hb
  unfold NotOverlapping redactionsOverlap at hnov
  simp only [Bool.and_eq_false_iff, decide_eq_false_iff_not, not_lt] at hnov
  rcases hnov with h | h <;> omega

/-- C8: the redaction list `redactTextInternal` returns (and splices)
is sorted start-descending, and for any start-descending pairwise
non-overlapping in-bounds redaction set the repeated splice
`text[:start] + replacement + text[end:]` replaces every span at its
original coordinates (`reconstruct`), with no offset bookkeeping. -/
theorem C8_rewrite_descending :
    (∀ (patterns : List (RedactionType × Matcher)) (text : List Char) (now : Int),
      ((redactTextInternal patterns text now).redactions).Pairwise
        (fun a b => b.start ≤ a.start)) ∧
    (∀ (rs : List Redaction) (text : List Char),
      rs.Pairwise (fun a b => b.start ≤ a.start) →
      NoOverlap rs →
      (∀ r ∈ rs, 0 ≤ r.start ∧ r.start < r.stop ∧ r.stop ≤ (text.length : Int)) →
      spliceAll text rs = reconstruct text rs) := by
  constructor
  · intro patterns text now
    exact sortByStartDesc_sorted _
  · intro rs text hdesc hno hval
    apply spliceAll_eq_reconstruct rs text
      (chain_of_sorted_disjoint rs hdesc hno (fun r hr => (hval r hr).2.1))
    intro r hr
    exact ⟨(hval r hr).1, le_of_lt (hval r hr).2.1, (hval r hr).2.2⟩

/-- Witness for C8: a concrete two-redaction rewrite, spans (10,15)
and (2,6) over a 20-character text, via the general theorem. -/
theorem C8_rewrite_descending_witness :
    spliceAll "abcdefghijklmnopqrst".toList
        [mkRedaction "ssn" 10 15, mkRedaction "email" 2 6] =
      reconstruct "abcdefghijklmnopqrst".toList
        [mkRedaction "ssn" 10 15, mkRedaction "email" 2 6] :=
  C8_rewrite_descending.2 _ _ (by decide) (by decide) (by decide)

/-! ### Association-list reads after writes -/

/-- Looking up `k` right after the Go map write `m[k] = v` yields `v`
(both for the overwrite and the append shape used in the embedding). -/
theorem assoc_find?_insert {α : Type} (m : List (String × α)) (k : String) (v : α) :
    ((if (m.find? (fun p => p.1 = k)).isSome then
        m.map (fun p => if p.1 = k then (k, v) else p)
      else m ++ [(k, v)]).find? (fun p => p.1 = k)) = some (k, v) := by
  by_cases h : (m.find? (fun p => (p.1 = k : Bool))).isSome
  · rw [if_pos h]
    induction m with
    | nil => simp at h
    | cons p rest ih =>
      by_cases hp : p.1 = k
      · simp [hp]
      · simp only [List.map_cons, if_neg hp]
        rw [List.find?_cons_of_neg _ (by simpa using hp)]
        apply ih
        rw [List.find?_cons_of_neg _ (by simpa using hp)] at h
        exact h
  · rw [if_neg h]
    rw [List.find?_append]
    have hnone : m.find? (fun p => (p.1 = k : Bool)) = none := by
      cases hf : m.find? (fun p => (p.1 = k : Bool)) with
      | none => rfl
      | some x => rw [hf] at h; simp at h
    rw [hnone]
    simp

/-- Reading with `mapLookup` after `mapInsert` at the same key. -/
theorem mapLookup_insert (m : TokenMap) (k : String) (v : TokenInfo) :
    mapLookup (mapInsert m k v) k = some v := by
  unfold mapLookup mapInsert
  rw [assoc_find?_insert m k v]
  rfl

/-! ### Token vault claims -/

/-- C4: evaluation at the failing input.  The current engine's
`restoreTextInternal` returns the stored text for a token whose
expiry (10) lies before now (100) and which no cleanup sweep has yet
removed, while the legacy `RedactionEngine.RestoreText` rejects the
same situation with the expiry error; an unknown token id fails with
the not-found error on both paths. -/
theorem C4_expired_unswept_restores :
    (restoreTextInternal
        [("deadbeefdeadbeefdeadbeefdeadbeef",
          { originalText := "secret".toList, rtype := "email", created := 0, expires := 10 })]
        "deadbeefdeadbeefdeadbeefdeadbeef" = .ok "secret".toList) ∧
    ((100 : Int) > 10) ∧
    (legacyRestoreText (fun _ _ => .ok "secret".toList)
        [("deadbeefdeadbeefdeadbeefdeadbeef",
          ⟨[1, 2, 3], "email", 0, 10, 1, [9, 9]⟩)]
        "deadbeefdeadbeefdeadbeefdeadbeef" 100 = .error "token has expired") ∧
    (restoreTextInternal
        [("deadbeefdeadbeefdeadbeefdeadbeef",
          { originalText := "secret".toList, rtype := "email", created := 0, expires := 10 })]
        "00000000000000000000000000000000" = .error "invalid or expired token") ∧
    (legacyRestoreText (fun _ _ => .ok "secret".toList)
        [("deadbeefdeadbeefdeadbeefdeadbeef",
          ⟨[1, 2, 3], "email", 0, 10, 1, [9, 9]⟩)]
        "00000000000000000000000000000000" 100 = .error "invalid or expired token") := by
  refine ⟨rfl, by norm_num, rfl, rfl, rfl⟩

/-- C5: round-trip identity — minting a reversible token over a result
and restoring it through the engine's token map returns exactly the
original text (here even without the before-expiry restriction, since
`restoreTextInternal` never consults the clock; cf. C4). -/
theorem C5_round_trip (tokens : TokenMap) (result : Result) (ttl : Int)
    (freshTok : String) (now : Int)
    (hne : result.redactions ≠ []) (_httl : 0 < ttl) :
    ∃ tokens', generateTokenWithTTL tokens result ttl freshTok now = some (freshTok, tokens') ∧
      restoreTextInternal tokens' freshTok = .ok result.originalText := by
  cases hr : result.redactions with
  | nil => exact absurd hr hne
  | cons first rest =>
    refine ⟨mapInsert tokens freshTok
      { originalText := result.originalText, rtype := first.rtype,
        created := now, expires := now + ttl }, ?_, ?_⟩
    · unfold generateTokenWithTTL
      rw [hr]
    · unfold restoreTextInternal
      rw [mapLookup_insert]

/-- Witness for C5 at a concrete mint/restore. -/
theorem C5_round_trip_witness :
    ∃ tokens', generateTokenWithTTL []
        { originalText := "Email: test@example.com".toList,
          redactedText := "Email: [EMAIL_REDACTED]".toList,
          redactions := [mkRedaction "email" 7 23], token := "", timestamp := 0 }
        3600 "a1b2c3d4" 1000 = some ("a1b2c3d4", tokens') ∧
      restoreTextInternal tokens' "a1b2c3d4" = .ok "Email: test@example.com".toList :=
  C5_round_trip [] _ 3600 "a1b2c3d4" 1000 (by decide) (by decide)

/-! ### Determinism of redaction -/

/-- C6 counterexample: the same pattern map (containing md5_hex and
btc_address) iterated in the two orders Go's randomised map iteration
can produce yields different redacted text on a 32-character string
that is simultaneously a full-span md5_hex and btc_address match: the
two candidates tie on span, length and priority, so whichever pattern
the iteration visits first wins. -/
theorem C6_determinism_counterexample :
    (redactTextInternal [("md5_hex", md5Matcher), ("btc_address", btcMatcher)]
        tieText 0).redactedText ≠
      (redactTextInternal [("btc_address", btcMatcher), ("md5_hex", md5Matcher)]
        tieText 0).redactedText := by
  decide

/-- C6 amended: redaction is a pure function of the text and the
pattern iteration order; on a text with no cross-type same-span
same-priority tie the two iteration orders agree exactly, while on the
tie text each order keeps its first-visited pattern's replacement. -/
theorem C6_determinism_given_order :
    (redactTextInternal [("md5_hex", md5Matcher), ("btc_address", btcMatcher)] noTieText 0 =
      redactTextInternal [("btc_address", btcMatcher), ("md5_hex", md5Matcher)] noTieText 0) ∧
    ((redactTextInternal [("md5_hex", md5Matcher), ("btc_address", btcMatcher)]
        tieText 0).redactedText = "[MD5_HASH_REDACTED]".toList) ∧
    ((redactTextInternal [("btc_address", btcMatcher), ("md5_hex", md5Matcher)]
        tieText 0).redactedText = "[BTC_ADDRESS_REDACTED]".toList) := by
  refine ⟨by decide, by decide, by decide⟩

/-! ### Custom pattern registration -/

/-- C9: a pattern that fails to compile makes `AddCustomPattern` return
an error with the pattern table (hence the active pattern count)
unchanged, so the invalid pattern never participates in detection; a
pattern that compiles is stored in the table under the given name. -/
theorem C9_add_custom_pattern (patterns : List (RedactionType × Matcher))
    (compile : String → Option Matcher) (name pat : String) :
    (compile pat = none →
      AddCustomPattern patterns compile name pat = (.error "invalid regex pattern", patterns)) ∧
    (∀ m, compile pat = some m →
      (AddCustomPattern patterns compile name pat).1 = .ok () ∧
        ((AddCustomPattern patterns compile name pat).2.find?
          (fun p => p.1 = name)).map (·.2) = some m) := by
  constructor
  · intro hfail
    unfold AddCustomPattern
    rw [hfail]
  · intro m hok
    unfold AddCustomPattern
    rw [hok]
    refine ⟨rfl, ?_⟩
    rw [assoc_find?_insert patterns name m]
    rfl

/-- Witness for C9: an unbalanced-bracket pattern is rejected leaving
the table as it was, and a balanced pattern is registered under its
name (with `bracketCompile` standing in for `regexp.Compile`). -/
theorem C9_add_custom_pattern_witness :
    (AddCustomPattern [("email", fun _ => [])] bracketCompile "my_pattern" "[unclosed"
      = (.error "invalid regex pattern", [("email", fun _ => [])])) ∧
    ((AddCustomPattern [("email", fun _ => [])] bracketCompile "my_pattern" "abc").1
        = .ok () ∧
      ((AddCustomPattern [("email", fun _ => [])] bracketCompile "my_pattern" "abc").2.find?
        (fun p => p.1 = "my_pattern")).map (·.2) = some (fun _ => [])) :=
  ⟨(C9_add_custom_pattern _ bracketCompile _ _).1 rfl,
   (C9_add_custom_pattern _ bracketCompile _ _).2 (fun _ => []) rfl⟩

/-! ### Reversible requests with no redactions -/

/-- C10: a reversible request whose (custom-pattern-free) text yields
zero redactions succeeds with an empty token and an unchanged token
map; and `RedactText` never reaches `generateTokenWithTTL`'s
first-redaction access on an empty redaction list (the panic value
`none` is unreachable), because minting is guarded by a non-empty
redaction count. -/
theorem C10_reversible_no_redactions (eng : Engine) (request : Request)
    (freshTok : String) (now : Int) :
    (request.reversible = true →
      request.customPatterns = [] →
      request.text.length ≤ eng.maxTextLength →
      (redactTextInternal eng.patterns request.text now).redactions = [] →
      RedactText eng (some request) false freshTok now =
        some (.ok (redactTextInternal eng.patterns request.text now, eng.tokens)) ∧
      (redactTextInternal eng.patterns request.text now).token = "") ∧
    (∀ (req : Option Request) (ctxCancelled : Bool),
      RedactText eng req ctxCancelled freshTok now ≠ none) := by
  constructor
  · intro _hrev hcustom hlen hzero
    constructor
    · unfold RedactText
      rw [if_neg (show ¬ (false : Bool) = true by simp)]
      dsimp only
      rw [if_neg (show ¬ request.text.length > eng.maxTextLength by omega)]
      rw [hcustom]
      simp only [List.length_nil, gt_iff_lt, lt_self_iff_false, if_false]
      rw [if_neg (by rw [hzero]; simp)]
    · rfl
  · intro req ctxCancelled
    unfold RedactText
    by_cases hctx : ctxCancelled = true
    · rw [if_pos hctx]; simp
    · rw [if_neg hctx]
      cases req with
      | none => simp
      | some request =>
        dsimp only
        by_cases hlen : request.text.length > eng.maxTextLength
        · rw [if_pos hlen]; simp
        · rw [if_neg hlen]
          set result := if request.customPatterns.length > 0 then
              applyCustomPatterns (redactTextInternal eng.patterns request.text now)
                request.customPatterns
            else redactTextInternal eng.patterns request.text now with hres
          by_cases hguard : request.reversible = true ∧ result.redactions.length > 0
          · rw [if_pos hguard]
            cases hr : result.redactions with
            | nil => rw [hr] at hguard; simp at hguard
            | cons first rest =>
              unfold generateTokenWithTTL
              rw [hr]
              simp
          · rw [if_neg hguard]
            simp

/-- Witness for C10 at a concrete engine and request: the pattern
table contains md5_hex, the text has no match, the request is
reversible, the result's token is empty and the token map stays
empty. -/
theorem C10_reversible_no_redactions_witness :
    RedactText ⟨[("md5_hex", md5Matcher)], [], 1000, 24⟩
        (some ⟨"hello".toList, [], true, 7⟩) false "cafe0123" 5 =
      some (.ok (redactTextInternal [("md5_hex", md5Matcher)] "hello".toList 5, [])) ∧
    (redactTextInternal [("md5_hex", md5Matcher)] "hello".toList 5).token = "" :=
  (C10_reversible_no_redactions ⟨[("md5_hex", md5Matcher)], [], 1000, 24⟩
    ⟨"hello".toList, [], true, 7⟩ "cafe0123" 5).1 rfl rfl (by decide) (by decide)

/-! ### Policy rule validation claims -/

/-- C7 counterexample: `Engine.ValidatePolicy` reports nothing for a
rule whose only pattern is the syntactically invalid `"["` and whose
field list is empty (it checks neither pattern syntax nor fields);
`PolicyAwareEngine.ValidatePolicy` reports nothing for a rule with
priority −5 (it never checks priority).  Both contradict the claimed
check list. -/
theorem C7_validation_counterexample :
    (engineValidatePolicy [⟨"r", ["["], [], "replace", [], 0, true⟩] = []) ∧
    (policyAwareValidatePolicy bracketCompile
      [⟨"r2", ["abc"], ["f"], "replace", [], -5, true⟩] = []) := by
  exact ⟨rfl, rfl⟩

/-- The fold in `Engine.ValidatePolicy` appends each rule's violations to
the running list, so the result is the concatenation of the per-rule
check results. -/
theorem engineValidatePolicy_flatMap :
    ∀ (rules : List PolicyRule) (acc : List ValidationError),
      rules.foldl
        (fun errors rule =>
          let errors := if rule.name = "" then
              errors ++ [⟨rule.name, "", "rule name cannot be empty", "EMPTY_RULE_NAME"⟩]
            else errors
          let errors := if rule.patterns.length = 0 then
              errors ++ [⟨rule.name, "", "rule must have at least one pattern", "NO_PATTERNS"⟩]
            else errors
          let errors := if rule.priority < 0 then
              errors ++ [⟨rule.name, "", "rule priority cannot be negative", "INVALID_PRIORITY"⟩]
            else errors
          let modeValid :=
            ["replace", "mask", "remove", "tokenize", "hash", "encrypt"].contains rule.mode
          let errors := if ¬ modeValid then
              errors ++ [⟨rule.name, "", "invalid redaction mode", "INVALID_MODE"⟩]
            else errors
          errors) acc =
      acc ++ rules.flatMap (fun rule =>
        (if rule.name = "" then
          [⟨rule.name, "", "rule name cannot be empty", "EMPTY_RULE_NAME"⟩] else []) ++
        (if rule.patterns.length = 0 then
          [⟨rule.name, "", "rule must have at least one pattern", "NO_PATTERNS"⟩] else []) ++
        (if rule.priority < 0 then
          [⟨rule.name, "", "rule priority cannot be negative", "INVALID_PRIORITY"⟩] else []) ++
        (if ¬ (["replace", "mask", "remove", "tokenize", "hash", "encrypt"].contains rule.mode)
          then [⟨rule.name, "", "invalid redaction mode", "INVALID_MODE"⟩] else [])) := by
  intro rules
  induction rules with
  | nil => intro acc; simp
  | cons r rest ih =>
    intro acc
    rw [List.foldl_cons, ih, List.flatMap_cons]
    dsimp only
    split_ifs <;> simp [List.append_assoc]

/-- C7 amended: what the validators actually check.  The embedded
engine's validator independently checks each rule for a non-empty
name, a non-empty pattern list, a non-negative priority, and a mode in
the fixed six-mode set, collecting every violation of every rule
without short-circuiting (it does not check pattern syntax or declared
fields); the policy-aware validator reports per-pattern regex-syntax
and missing-fields violations (but skips a rule's other checks when
its name is empty, and never checks priority).  A rule violating all
four engine checks yields all four errors at once. -/
theorem C7_validation_amended :
    (∀ rules : List PolicyRule,
      engineValidatePolicy rules = rules.flatMap (fun rule =>
        (if rule.name = "" then
          [⟨rule.name, "", "rule name cannot be empty", "EMPTY_RULE_NAME"⟩] else []) ++
        (if rule.patterns.length = 0 then
          [⟨rule.name, "", "rule must have at least one pattern", "NO_PATTERNS"⟩] else []) ++
        (if rule.priority < 0 then
          [⟨rule.name, "", "rule priority cannot be negative", "INVALID_PRIORITY"⟩] else []) ++
        (if ¬ (["replace", "mask", "remove", "tokenize", "hash", "encrypt"].contains rule.mode)
          then [⟨rule.name, "", "invalid redaction mode", "INVALID_MODE"⟩] else []))) ∧
    (engineValidatePolicy [⟨"", [], [], "bogus", [], -1, true⟩] =
      [⟨"", "", "rule name cannot be empty", "EMPTY_RULE_NAME"⟩,
       ⟨"", "", "rule must have at least one pattern", "NO_PATTERNS"⟩,
       ⟨"", "", "rule priority cannot be negative", "INVALID_PRIORITY"⟩,
       ⟨"", "", "invalid redaction mode", "INVALID_MODE"⟩]) ∧
    (policyAwareValidatePolicy bracketCompile [⟨"r", ["["], [], "replace", [], 0, true⟩] =
      [⟨"r", "patterns[i]", "invalid regex pattern", "INVALID_REGEX"⟩,
       ⟨"r", "fields", "at least one field must be specified", "MISSING_FIELDS"⟩]) := by
  refine ⟨?_, rfl, rfl⟩
  intro rules
  unfold engineValidatePolicy
  rw [engineValidatePolicy_flatMap rules []]
  rfl

end Redact
